import Mathlib

/-!
Verification of the LDAP directory connector
(src/user_sync/connector/directory_ldap.py).

The Python source is shallowly embedded: byte strings are lists of
naturals, text decoding is an explicit oracle parameter
(dec : ByteStr -> Option String, none = UnicodeError), Python dicts
keyed by strings are association lists read through alookup, code
that can raise AssertionException returns Except String, and the
paged-search generator is modelled as the trace of backend events it
produces.  Definitions follow the source line by line; the doc
comment of each cites the lines it embeds.
-/

namespace UserSync

/-- A raw byte string as returned by the directory (Python bytes). -/
abbrev ByteStr := List Nat

/-- A raw directory record: attribute name to list of byte values,
as in the dict handed to iter_users by the LDAP search. -/
abbrev LDAPRecord := List (String × List ByteStr)

/-- First-binding association-list lookup, the embedding of Python
dict read (d[k] / k in d). -/
def alookup {α : Type} : List (String × α) → String → Option α
  | [], _ => none
  | (k, v) :: rest, key => if k = key then some v else alookup rest key

/-- Python truthiness of an optional string: None and the empty
string are falsy. -/
def pyFalsy : Option String → Bool
  | none => true
  | some s => s.isEmpty

/-- Python str.strip(): drop leading and trailing whitespace,
embedded over the character list so that it evaluates by
reduction. -/
def stripString (s : String) : String :=
  String.mk (((s.data.dropWhile Char.isWhitespace).reverse.dropWhile
    Char.isWhitespace).reverse)

/-- Embedding of the Python idiom s.strip() if s else None used at
directory_ldap.py lines 206, 233, 244. -/
def pyStrip : Option String → Option String
  | none => none
  | some s => if s.isEmpty then none else some (stripString s)

/-- A formatter as built by LDAPValueFormatter.__init__ (lines
324-334): the template, already split by string.Formatter().parse
into (literal text, optional field name) items; none = the
configured format string was None. -/
structure LDAPValueFormatter where
  string_format : Option (List (String × Option String))
deriving DecidableEq, Repr

/-- The placeholder names of the parsed template items, in order,
dropping items with no field and empty field names, exactly as
[item[1] for item in formatter.parse(string_format) if item[1]]
(line 332). -/
def attributeNamesOf (items : List (String × Option String)) : List String :=
  items.filterMap (fun it =>
    match it.2 with
    | some n => if n.isEmpty then none else some n
    | none => none)

/-- LDAPValueFormatter.get_attribute_names (lines 336-340). -/
def LDAPValueFormatter.get_attribute_names (f : LDAPValueFormatter) : List String :=
  match f.string_format with
  | none => []
  | some items => attributeNamesOf items

/-- LDAPValueFormatter.get_attribute_value (lines 361-374): absent
key or empty value list give None; otherwise the first value is
decoded, a decode failure raising AssertionException (= .error). -/
def get_attribute_value (dec : ByteStr → Option String) (attributes : LDAPRecord)
    (attribute_name : String) : Except String (Option String) :=
  match alookup attributes attribute_name with
  | some (v :: _) =>
      match dec v with
      | some s => .ok (some s)
      | none => .error ("Encoding error in value of attribute " ++ attribute_name)
  | some [] => .ok none
  | none => .ok none

/-- The loop of LDAPValueFormatter.generate_value (lines 350-356):
walk the placeholder names accumulating decoded values; a missing
value sets values = None and breaks, remembering the offending name;
the running attribute_name is the last name examined. -/
def generateValueGo (dec : ByteStr → Option String) (record : LDAPRecord) :
    List String → List (String × String) → Option String →
    Except String (Option (List (String × String)) × Option String)
  | [], values, lastName => .ok (some values, lastName)
  | name :: rest, values, _ =>
    match get_attribute_value dec record name with
    | .error e => .error e
    | .ok none => .ok (none, some name)
    | .ok (some v) => generateValueGo dec record rest (values ++ [(name, v)]) (some name)

/-- Python str.format(**values) applied to the parsed template items:
literals copied, each named field replaced by its bound value; a
field that is unnamed-empty or unbound raises (KeyError/IndexError),
embedded as .error. -/
def formatTemplate : List (String × Option String) → List (String × String) →
    Except String String
  | [], _ => .ok ""
  | (lit, none) :: rest, values =>
    match formatTemplate rest values with
    | .ok s => .ok (lit ++ s)
    | .error e => .error e
  | (lit, some name) :: rest, values =>
    match alookup values name with
    | none => .error ("KeyError: " ++ name)
    | some v =>
      match formatTemplate rest values with
      | .ok s => .ok (lit ++ v ++ s)
      | .error e => .error e

/-- LDAPValueFormatter.generate_value (lines 342-359). -/
def LDAPValueFormatter.generate_value (f : LDAPValueFormatter)
    (dec : ByteStr → Option String) (record : LDAPRecord) :
    Except String (Option String × Option String) :=
  match f.string_format with
  | none => .ok (none, none)
  | some items =>
    match generateValueGo dec record (attributeNamesOf items) [] none with
    | .error e => .error e
    | .ok (none, lastName) => .ok (none, lastName)
    | .ok (some values, lastName) =>
      match formatTemplate items values with
      | .error e => .error e
      | .ok s => .ok (some s, lastName)

/-- The decoded first value of an attribute, none when the attribute
is absent, has no values, or its first value fails to decode (a
record-level view used to state properties of the formatter). -/
def decodedFirst (dec : ByteStr → Option String) (record : LDAPRecord)
    (n : String) : Option String :=
  match alookup record n with
  | some (v :: _) => dec v
  | _ => none

/-- An attribute counts as missing from a record when it is absent
or bound to an empty value list (the two .ok none cases of
get_attribute_value). -/
def attrMissing (record : LDAPRecord) (n : String) : Bool :=
  match alookup record n with
  | some (_ :: _) => false
  | _ => true

/-- The substitution the spec describes for a fully resolving
template: each placeholder replaced by that attribute's decoded
first value, literals kept. -/
def specSubst (dec : ByteStr → Option String) (record : LDAPRecord) :
    List (String × Option String) → String
  | [] => ""
  | (lit, none) :: rest => lit ++ specSubst dec record rest
  | (lit, some n) :: rest =>
    lit ++ (match decodedFirst dec record n with | some s => s | none => "") ++
      specSubst dec record rest

/-- Modelled from the spec: user_sync.identity_type is not under
src/.  Spec section 8 fixes the identity-type enumeration to
adobeID, enterpriseID, federatedID, and an invalid value is an
error (AssertionException, = .error). -/
def parse_identity_type (s : String) : Except String String :=
  if s = "adobeID" ∨ s = "enterpriseID" ∨ s = "federatedID" then .ok s
  else .error ("Unrecognized identity type: " ++ s)

/-- The normalized user record (the dict built by iter_users).
Field names follow the Python keys. -/
structure LDAPUser where
  email : String
  identity_type : String
  username : String
  domain : Option String
  firstname : Option String
  lastname : Option String
  country : Option String
  uid : Option String
  source_attributes : List (String × Option String)
  groups : List String
deriving DecidableEq, Repr

/-- The connector's four formatters and default identity type, the
pieces of LDAPDirectoryConnector.__init__ state that iter_users
reads (lines 96-100). -/
structure FormatterConfig where
  email_formatter : LDAPValueFormatter
  identity_type_formatter : LDAPValueFormatter
  username_formatter : LDAPValueFormatter
  domain_formatter : LDAPValueFormatter
  user_identity_type : String
deriving DecidableEq, Repr

/-- The per-extended-attribute loop of iter_users (lines 269-272):
look up each requested extended attribute for source_attributes,
propagating decode errors. -/
def extendedValues (dec : ByteStr → Option String) (record : LDAPRecord) :
    List String → Except String (List (String × Option String))
  | [] => .ok []
  | a :: rest =>
    match get_attribute_value dec record a with
    | .error e => .error e
    | .ok v =>
      match extendedValues dec record rest with
      | .error e => .error e
      | .ok vs => .ok ((a, v) :: vs)

/-- The field-derivation part of iter_users (lines 205-276), for an
entry whose dn is not yet cached: returns (some user, warnings) on
success, (none, warnings) when the entry is skipped, .error when an
exception propagates (encoding failures).  The warning strings
mirror the logger.warning calls. -/
def deriveNewUser (dec : ByteStr → Option String) (cfg : FormatterConfig)
    (extA : List String) (dn : String) (record : LDAPRecord) :
    Except String (Option LDAPUser × List String) :=
  match cfg.email_formatter.generate_value dec record with
  | .error e => .error e
  | .ok (emailRaw, emailAttr) =>
    let emailS := pyStrip emailRaw
    if pyFalsy emailS then
      .ok (none,
        match emailAttr with
        | some a => ["Skipping user with dn " ++ dn ++ ": empty email attribute (" ++ a ++ ")"]
        | none => [])
    else
      let email := emailS.getD ""
      match cfg.identity_type_formatter.generate_value dec record with
      | .error e => .error e
      | .ok (identityTypeRaw, idAttr) =>
        let w1 : List String :=
          if idAttr.isSome && pyFalsy identityTypeRaw then
            ["No identity_type attribute for user with dn: " ++ dn ++
              ", defaulting to " ++ cfg.user_identity_type]
          else []
        match (if pyFalsy identityTypeRaw then Except.ok cfg.user_identity_type
               else parse_identity_type (identityTypeRaw.getD "")) with
        | .error msg =>
          .ok (none, w1 ++ ["Skipping user with dn " ++ dn ++ ": " ++ msg])
        | .ok identType =>
          match cfg.username_formatter.generate_value dec record with
          | .error e => .error e
          | .ok (usernameRaw, unAttr) =>
            let usernameS := pyStrip usernameRaw
            let w2 : List String :=
              if pyFalsy usernameS && unAttr.isSome then
                ["No username attribute for user with dn: " ++ dn ++
                  ", default to email (" ++ email ++ ")"]
              else []
            match cfg.domain_formatter.generate_value dec record with
            | .error e => .error e
            | .ok (domainRaw, dmAttr) =>
              let domainS := pyStrip domainRaw
              let w3 : List String :=
                if pyFalsy domainS && dmAttr.isSome then
                  ["No domain attribute for user with dn: " ++ dn]
                else []
              match get_attribute_value dec record ("givenName") with
              | .error e => .error e
              | .ok givenName =>
                match get_attribute_value dec record ("sn") with
                | .error e => .error e
                | .ok snV =>
                  match get_attribute_value dec record ("c") with
                  | .error e => .error e
                  | .ok cV =>
                    match get_attribute_value dec record ("uid") with
                    | .error e => .error e
                    | .ok uidV =>
                      match extendedValues dec record extA with
                      | .error e => .error e
                      | .ok extVals =>
                        .ok (some
                          { email := email
                            identity_type := identType
                            username := if pyFalsy usernameS then email else usernameS.getD ""
                            domain := if pyFalsy domainS then none else domainS
                            firstname := givenName
                            lastname := snV
                            country := cV
                            uid := uidV
                            source_attributes :=
                              [("email", some email), ("identity_type", identityTypeRaw),
                               ("username", usernameS), ("domain", domainS),
                               ("givenName", givenName), ("sn", snV), ("c", cV),
                               ("uid", uidV)] ++ extVals
                            groups := [] }, w1 ++ w2 ++ w3)

/-- One entry of the iter_users loop (lines 198-279): a null dn is
skipped silently; a dn already in user_by_dn yields the cached
record unchanged; otherwise the fields are derived and, on success,
the new record is inserted into the cache and yielded. -/
def processEntry (dec : ByteStr → Option String) (cfg : FormatterConfig)
    (extA : List String) (cache : List (String × LDAPUser))
    (dnOpt : Option String) (record : LDAPRecord) :
    Except String (List (String × LDAPUser) × Option (String × LDAPUser) × List String) :=
  match dnOpt with
  | none => .ok (cache, none, [])
  | some dn =>
    match alookup cache dn with
    | some u => .ok (cache, some (dn, u), [])
    | none =>
      match deriveNewUser dec cfg extA dn record with
      | .error e => .error e
      | .ok (none, ws) => .ok (cache, none, ws)
      | .ok (some user, ws) => .ok (cache ++ [(dn, user)], some (dn, user), ws)

/-- The built-in attribute names requested from the directory
(iter_users lines 188-192). -/
def ldapUserAttributeNames (cfg : FormatterConfig) : List String :=
  [("givenName" : String), ("sn"), ("c")] ++
    cfg.identity_type_formatter.get_attribute_names ++
    cfg.email_formatter.get_attribute_names ++
    cfg.username_formatter.get_attribute_names ++
    cfg.domain_formatter.get_attribute_names

/-- list(set(extended_attributes) - set(user_attribute_names))
(iter_users line 194): duplicates collapsed and built-in names
removed (the set's iteration order is abstracted to first
occurrence). -/
def filteredExtendedAttributes (cfg : FormatterConfig) (extAttrs : List String) :
    List String :=
  extAttrs.eraseDups.filter (fun a => !((ldapUserAttributeNames cfg).contains a))

/-- The whole iter_users pass over a list of raw search entries,
threading the session cache and collecting the yielded (dn, user)
pairs and warnings, with extended attributes already filtered. -/
def iterUsersGo (dec : ByteStr → Option String) (cfg : FormatterConfig)
    (extA : List String) (cache : List (String × LDAPUser)) :
    List (Option String × LDAPRecord) →
    Except String (List (String × LDAPUser) × List (String × LDAPUser) × List String)
  | [] => .ok (cache, [], [])
  | (dnOpt, record) :: rest =>
    match processEntry dec cfg extA cache dnOpt record with
    | .error e => .error e
    | .ok (cache1, yOpt, ws) =>
      match iterUsersGo dec cfg extA cache1 rest with
      | .error e => .error e
      | .ok (cache2, ys, ws2) => .ok (cache2, yOpt.toList ++ ys, ws ++ ws2)

/-- iter_users (lines 184-279) for one search, run to exhaustion. -/
def iter_users (dec : ByteStr → Option String) (cfg : FormatterConfig)
    (extAttrs : List String) (cache : List (String × LDAPUser))
    (entries : List (Option String × LDAPRecord)) :
    Except String (List (String × LDAPUser) × List (String × LDAPUser) × List String) :=
  iterUsersGo dec cfg (filteredExtendedAttributes cfg extAttrs) cache entries

/-- The group-tag append user['groups'].append(group)
(load_users_and_groups line 146) on the cache record of dn: the
first binding of dn gets the group name appended to its group list,
unconditionally. -/
def appendGroup : List (String × LDAPUser) → String → String →
    List (String × LDAPUser)
  | [], _, _ => []
  | (d, u) :: t, dn, g =>
    if d = dn then (d, { u with groups := u.groups ++ [g] }) :: t
    else (d, u) :: appendGroup t dn g

/-- The fused loop of load_users_and_groups lines 145-147 with the
iter_users generator: each yielded record immediately gets the
current group name appended to its group list (mutating the cached
record) before the next entry is processed. -/
def processGroupMembersGo (dec : ByteStr → Option String) (cfg : FormatterConfig)
    (extA : List String) (group : String) (cache : List (String × LDAPUser)) :
    List (Option String × LDAPRecord) →
    Except String (List (String × LDAPUser) × List String)
  | [] => .ok (cache, [])
  | (dnOpt, record) :: rest =>
    match processEntry dec cfg extA cache dnOpt record with
    | .error e => .error e
    | .ok (cache1, yOpt, ws) =>
      match processGroupMembersGo dec cfg extA group
          (match yOpt with
           | some (d, _) => appendGroup cache1 d group
           | none => cache1) rest with
      | .error e => .error e
      | .ok (cache2, ws2) => .ok (cache2, ws ++ ws2)

/-- The loop of find_ldap_group_dn (lines 176-182): group_dn is the
accumulator; a tuple with a falsy dn is ignored; a second truthy dn
raises the ambiguous-group AssertionException. -/
def findLdapGroupDnGo (group : String) (acc : Option String) :
    List (Option String) → Except String (Option String)
  | [] => .ok acc
  | t :: rest =>
    if pyFalsy t then findLdapGroupDnGo group acc rest
    else
      match acc with
      | some _ => .error ("Multiple LDAP groups found for: " ++ group)
      | none => findLdapGroupDnGo group t rest

/-- find_ldap_group_dn (lines 165-182); the backend search result is
given as the list of dn fields of the returned tuples. -/
def find_ldap_group_dn (group : String) (res : List (Option String)) :
    Except String (Option String) :=
  findLdapGroupDnGo group none res

/-- One requested group together with what the backend returns for
it: the dn fields of the group-resolution search tuples, and the raw
entries of the member search driven with the combined filter (the
filter construction of lines 137-143 is abstracted into this
oracle). -/
structure GroupQuery where
  name : String
  groupSearch : List (Option String)
  members : List (Option String × LDAPRecord)

/-- The per-group phase of load_users_and_groups (lines 132-148):
resolve each group, warn and skip it when no dn is found, propagate
the ambiguous-group error, and otherwise run the member search
through iter_users, appending the group tag to every yielded
record. -/
def loadGroupsPhase (dec : ByteStr → Option String) (cfg : FormatterConfig)
    (extA : List String) (cache : List (String × LDAPUser)) :
    List GroupQuery → Except String (List (String × LDAPUser) × List String)
  | [] => .ok (cache, [])
  | gq :: rest =>
    match find_ldap_group_dn gq.name gq.groupSearch with
    | .error e => .error e
    | .ok none =>
      match loadGroupsPhase dec cfg extA cache rest with
      | .error e => .error e
      | .ok (c, ws) => .ok (c, ("No group found for: " ++ gq.name) :: ws)
    | .ok (some _) =>
      match processGroupMembersGo dec cfg extA gq.name cache gq.members with
      | .error e => .error e
      | .ok (cache1, ws1) =>
        match loadGroupsPhase dec cfg extA cache1 rest with
        | .error e => .error e
        | .ok (c, ws) => .ok (c, ws1 ++ ws)

/-- load_users_and_groups (lines 120-163): the group phase, then,
when all_users is set, one more iter_users pass over the all-users
search (whose yields only feed debug counters); the result is the
session cache together with the warnings logged. -/
def load_users_and_groups (dec : ByteStr → Option String) (cfg : FormatterConfig)
    (extAttrs : List String) (groupQueries : List GroupQuery) (all_users : Bool)
    (allEntries : List (Option String × LDAPRecord))
    (cache : List (String × LDAPUser)) :
    Except String (List (String × LDAPUser) × List String) :=
  match loadGroupsPhase dec cfg (filteredExtendedAttributes cfg extAttrs) cache
      groupQueries with
  | .error e => .error e
  | .ok (cache1, ws) =>
    if all_users then
      match iter_users dec cfg extAttrs cache1 allEntries with
      | .error e => .error e
      | .ok (cache2, _ys, ws2) => .ok (cache2, ws ++ ws2)
    else .ok (cache1, ws)

/-- One page as the backend serves it: the page's entries, the
continuation cookie of its paging control, and whether the paging
control was present in the response at all. -/
structure SearchPage (α : Type) where
  entries : List α
  cookie : String
  ctrlPresent : Bool
deriving DecidableEq, Repr

/-- The observable events of iter_search_result (lines 281-318):
issuing a search request (search_ext, returning a message id),
reading a response (result3 on that id), yielding one entry to the
consumer, abandoning a pending request (connection.abandon), and the
warning for a backend that ignored the paging control. -/
inductive PageEvent (α : Type) where
  | search (msgid : Nat) : PageEvent α
  | result (msgid : Nat) : PageEvent α
  | yieldEntry (e : α) : PageEvent α
  | abandonReq (msgid : Nat) : PageEvent α
  | warnControlIgnored : PageEvent α
deriving DecidableEq, Repr

/-- The while loop of iter_search_result (lines 293-314) with
request msgid m in flight and the backend about to answer it with
the head page: read the response; if the paging control is missing,
warn, stop paging and still yield the page; if the cookie is empty,
stop paging and yield the page; otherwise issue the next request
(line 310) BEFORE yielding the page's entries (lines 312-314), then
continue.  An exhausted page list stands for a backend answering
with an empty final page. -/
def iterSearchGo {α : Type} (m : Nat) : List (SearchPage α) → List (PageEvent α)
  | [] => [.result m]
  | p :: rest =>
    if p.ctrlPresent = false then
      .result m :: .warnControlIgnored :: p.entries.map .yieldEntry
    else if p.cookie = "" then
      .result m :: p.entries.map .yieldEntry
    else
      .result m :: .search (m + 1) ::
        (p.entries.map .yieldEntry ++ iterSearchGo (m + 1) rest)

/-- The full event trace of iter_search_result when the consumer
drains it: the first iteration has no pending msgid, so it only
issues the initial request (line 310), and the loop proceeds from
there. -/
def iterSearchTrace {α : Type} (pages : List (SearchPage α)) : List (PageEvent α) :=
  .search 0 :: iterSearchGo 0 pages

/-- Claim C4's ordering property, formalized on the event trace:
between issuing any page request and reading its response no entry
is yielded — equivalently, every entry of the current page is
yielded before the request for the next page is issued. -/
def pageYieldsPrecedeNextRequest {α : Type} (t : List (PageEvent α)) : Prop :=
  ∀ (i j k : Nat), t[i]? = some (PageEvent.search k) → t[j]? = some (PageEvent.result k) →
    ∀ (l : Nat), i < l → l < j → ∀ e : α, t[l]? ≠ some (PageEvent.yieldEntry e)

/-- iter_search_result when the consumer stops after n entries and
closes the generator: the trace runs to the n-th yield; the
GeneratorExit handler (lines 315-318) then abandons the pending
request, if any.  While a non-final page is being yielded the next
request (issued at line 310) is pending, so closing there emits
abandonReq; during a final page msgid is None and nothing is
pending. -/
def iterSearchClosedGo {α : Type} (m : Nat) (n : Nat) :
    List (SearchPage α) → List (PageEvent α)
  | [] => [.result m]
  | p :: rest =>
    if p.ctrlPresent = false then
      .result m :: .warnControlIgnored :: (p.entries.take n).map .yieldEntry
    else if p.cookie = "" then
      .result m :: (p.entries.take n).map .yieldEntry
    else
      if n ≤ p.entries.length then
        .result m :: .search (m + 1) ::
          ((p.entries.take n).map .yieldEntry ++ [.abandonReq (m + 1)])
      else
        .result m :: .search (m + 1) ::
          (p.entries.map .yieldEntry ++
            iterSearchClosedGo (m + 1) (n - p.entries.length) rest)

/-- The trace of iter_search_result whose consumer takes n entries
and then closes the generator (n = 0: the generator is never
started, so no request is ever issued). -/
def iterSearchClosedTrace {α : Type} (pages : List (SearchPage α)) (n : Nat) :
    List (PageEvent α) :=
  if n = 0 then [] else .search 0 :: iterSearchClosedGo 0 n pages

/-! ### Lemmas about group resolution -/

/-- A search result with no truthy dn leaves the accumulator
untouched. -/
theorem findLdapGroupDnGo_all_falsy (group : String) (acc : Option String)
    (res : List (Option String)) (h : ∀ t ∈ res, pyFalsy t = true) :
    findLdapGroupDnGo group acc res = .ok acc := by
  induction res with
  | nil => rfl
  | cons t rest ih =>
    have ht : pyFalsy t = true := h t (List.mem_cons_self t rest)
    simp only [findLdapGroupDnGo, ht, if_true]
    exact ih (fun x hx => h x (List.mem_cons_of_mem t hx))

/-- With a truthy accumulator, any further truthy dn raises the
ambiguous-group error. -/
theorem findLdapGroupDnGo_error_of_acc (group : String) (s : String)
    (res : List (Option String)) (h : 1 ≤ res.countP (fun t => !pyFalsy t)) :
    ∃ e, findLdapGroupDnGo group (some s) res = .error e := by
  induction res with
  | nil => simp [List.countP, List.countP.go] at h
  | cons t rest ih =>
    cases ht : pyFalsy t with
    | true =>
      simp only [findLdapGroupDnGo, ht, if_true]
      apply ih
      simpa [List.countP_cons, ht] using h
    | false =>
      simp only [findLdapGroupDnGo, ht, Bool.false_eq_true, if_false]
      exact ⟨"Multiple LDAP groups found for: " ++ group, rfl⟩

/-- Two or more truthy dns in the result always raise the
ambiguous-group error, whatever the accumulator. -/
theorem findLdapGroupDnGo_error_of_two (group : String) (acc : Option String)
    (res : List (Option String)) (h : 2 ≤ res.countP (fun t => !pyFalsy t)) :
    ∃ e, findLdapGroupDnGo group acc res = .error e := by
  induction res generalizing acc with
  | nil => simp [List.countP, List.countP.go] at h
  | cons t rest ih =>
    cases ht : pyFalsy t with
    | true =>
      simp only [findLdapGroupDnGo, ht, if_true]
      apply ih
      simpa [List.countP_cons, ht] using h
    | false =>
      simp only [findLdapGroupDnGo, ht, Bool.false_eq_true, if_false]
      match acc with
      | some s => exact ⟨"Multiple LDAP groups found for: " ++ group, rfl⟩
      | none =>
        cases t with
        | none => simp [pyFalsy] at ht
        | some s =>
          apply findLdapGroupDnGo_error_of_acc
          have hc : ((some s : Option String) :: rest).countP (fun t => !pyFalsy t)
              = rest.countP (fun t => !pyFalsy t) + 1 := by
            simp [List.countP_cons, ht]
          omega

/-- At most one truthy dn never raises: the search returns
normally. -/
theorem findLdapGroupDnGo_ok_of_le_one (group : String)
    (res : List (Option String)) (h : res.countP (fun t => !pyFalsy t) ≤ 1) :
    ∃ r, findLdapGroupDnGo group none res = .ok r := by
  induction res with
  | nil => exact ⟨none, rfl⟩
  | cons t rest ih =>
    cases ht : pyFalsy t with
    | true =>
      simp only [findLdapGroupDnGo, ht, if_true]
      apply ih
      have hc : (t :: rest).countP (fun t => !pyFalsy t)
          = rest.countP (fun t => !pyFalsy t) := by
        simp [List.countP_cons, ht]
      omega
    | false =>
      simp only [findLdapGroupDnGo, ht, Bool.false_eq_true, if_false]
      refine ⟨t, findLdapGroupDnGo_all_falsy group t rest ?_⟩
      intro x hx
      by_contra hx2
      have h1 : 1 ≤ rest.countP (fun t => !pyFalsy t) := by
        have hpos := List.countP_pos_iff (p := fun t => !pyFalsy t) (l := rest)
        exact hpos.2 ⟨x, hx, by simp [Bool.not_eq_true] at hx2 ⊢; exact hx2⟩
      have h2 : (t :: rest).countP (fun t => !pyFalsy t)
          = rest.countP (fun t => !pyFalsy t) + 1 := by
        simp [List.countP_cons, ht]
      omega

/-- C10: only truthy-dn tuples count as matches when resolving a
group name; the ambiguous-group error needs at least two non-null
dns, a head null-dn tuple is simply skipped, and an all-null result
resolves to no group rather than an error. -/
theorem ldap_c10_group_matches_require_dn (group : String)
    (res : List (Option String)) :
    ((∃ e, find_ldap_group_dn group res = .error e) →
      2 ≤ res.countP (fun t => t.isSome)) ∧
    ((∀ t ∈ res, t = none) → find_ldap_group_dn group res = .ok none) ∧
    (find_ldap_group_dn group (none :: res) = find_ldap_group_dn group res) := by
  refine ⟨?_, ?_, ?_⟩
  · intro ⟨e, he⟩
    by_contra hc
    have hle : res.countP (fun t => !pyFalsy t) ≤ 1 := by
      have hmono : res.countP (fun t => !pyFalsy t) ≤ res.countP (fun t => t.isSome) := by
        apply List.countP_mono_left
        intro t _ ht
        match t with
        | none => simp [pyFalsy] at ht
        | some s => simp
      omega
    obtain ⟨r, hr⟩ := findLdapGroupDnGo_ok_of_le_one group res hle
    rw [find_ldap_group_dn, hr] at he
    exact Except.noConfusion he
  · intro h
    apply findLdapGroupDnGo_all_falsy
    intro t ht
    rw [h t ht]
    rfl
  · rfl

/-- Witness for the C10 theorem at a concrete two-match result. -/
theorem ldap_c10_witness :
    2 ≤ ([some ("cn=a"), some ("cn=b")] : List (Option String)).countP
      (fun t => t.isSome) :=
  (ldap_c10_group_matches_require_dn ("g") [some ("cn=a"), some ("cn=b")]).1
    ⟨"Multiple LDAP groups found for: g", rfl⟩

/-- C5: resolving a requested group with no truthy match logs the
no-group warning and skips the group, the rest of the load running
unchanged; a group matching two or more directory entries makes the
whole load_users_and_groups call fail with the propagated
ambiguous-group error. -/
theorem ldap_c5_group_resolution (dec : ByteStr → Option String)
    (cfg : FormatterConfig) (extAttrs : List String) (gq : GroupQuery)
    (rest : List GroupQuery) (au : Bool)
    (ae : List (Option String × LDAPRecord)) (cache : List (String × LDAPUser)) :
    ((∀ t ∈ gq.groupSearch, pyFalsy t = true) →
      load_users_and_groups dec cfg extAttrs (gq :: rest) au ae cache =
        match load_users_and_groups dec cfg extAttrs rest au ae cache with
        | .ok (c, ws) => .ok (c, ("No group found for: " ++ gq.name) :: ws)
        | .error e => .error e) ∧
    (2 ≤ gq.groupSearch.countP (fun t => !pyFalsy t) →
      ∃ e, load_users_and_groups dec cfg extAttrs (gq :: rest) au ae cache = .error e) := by
  constructor
  · intro h
    have hfind : find_ldap_group_dn gq.name gq.groupSearch = .ok none :=
      findLdapGroupDnGo_all_falsy gq.name none gq.groupSearch h
    simp only [load_users_and_groups, loadGroupsPhase, hfind]
    cases hrest : loadGroupsPhase dec cfg (filteredExtendedAttributes cfg extAttrs)
        cache rest with
    | error e => simp
    | ok p =>
      obtain ⟨c1, ws⟩ := p
      cases au with
      | false => simp
      | true =>
        cases hiter : iter_users dec cfg extAttrs c1 ae with
        | error e => simp [hiter]
        | ok q =>
          obtain ⟨c2, ys2⟩ := q
          simp [hiter]
  · intro h
    obtain ⟨e, he⟩ := findLdapGroupDnGo_error_of_two gq.name none gq.groupSearch h
    refine ⟨e, ?_⟩
    simp only [load_users_and_groups, loadGroupsPhase, find_ldap_group_dn, he]

/-- Witness for the C5 theorem: one unmatched group is skipped with
the warning, and a two-match group aborts the load. -/
theorem ldap_c5_witness :
    (load_users_and_groups (fun _ => none) ⟨⟨none⟩, ⟨none⟩, ⟨none⟩, ⟨none⟩, ""⟩ []
        [⟨"g", [none], []⟩] false [] [] =
      .ok ([], ["No group found for: g"])) ∧
    (∃ e, load_users_and_groups (fun _ => none) ⟨⟨none⟩, ⟨none⟩, ⟨none⟩, ⟨none⟩, ""⟩ []
        [⟨"g", [some ("cn=a"), some ("cn=b")], []⟩] false [] [] = .error e) := by
  constructor
  · have h := (ldap_c5_group_resolution (fun _ => none)
      ⟨⟨none⟩, ⟨none⟩, ⟨none⟩, ⟨none⟩, ""⟩ [] ⟨"g", [none], []⟩ [] false [] []).1
      (by intro t ht; simp at ht; rw [ht]; rfl)
    simpa using h
  · exact (ldap_c5_group_resolution (fun _ => none)
      ⟨⟨none⟩, ⟨none⟩, ⟨none⟩, ⟨none⟩, ""⟩ [] ⟨"g", [some ("cn=a"), some ("cn=b")], []⟩
      [] false [] []).2 (by decide)

/-- C9: get_attribute_value never indexes out of bounds: an absent
attribute and an attribute with an empty value list both give a
clean absent result, and the only error it ever produces comes from
the first value of a present attribute failing to decode. -/
theorem ldap_c9_get_attribute_value_total (dec : ByteStr → Option String)
    (attrs : LDAPRecord) (name : String) :
    (alookup attrs name = none → get_attribute_value dec attrs name = .ok none) ∧
    (alookup attrs name = some [] → get_attribute_value dec attrs name = .ok none) ∧
    (∀ e, get_attribute_value dec attrs name = .error e →
      ∃ v vs, alookup attrs name = some (v :: vs) ∧ dec v = none) := by
  refine ⟨?_, ?_, ?_⟩
  · intro h
    simp only [get_attribute_value, h]
  · intro h
    simp only [get_attribute_value, h]
  · intro e he
    cases hl : alookup attrs name with
    | none =>
      simp only [get_attribute_value, hl] at he
      exact Except.noConfusion he
    | some vals =>
      cases vals with
      | nil =>
        simp only [get_attribute_value, hl] at he
        exact Except.noConfusion he
      | cons v vs =>
        cases hd : dec v with
        | none => exact ⟨v, vs, rfl, hd⟩
        | some s =>
          simp only [get_attribute_value, hl, hd] at he
          exact Except.noConfusion he

/-- Witness for the C9 theorem: an attribute present with an empty
value list yields absent. -/
theorem ldap_c9_witness :
    get_attribute_value (fun _ => none) [(("a"), [])] ("a") = .ok none :=
  (ldap_c9_get_attribute_value_total (fun _ => none) [(("a"), [])] ("a")).2.1 rfl

/-! ### Lemmas about the value formatter -/

/-- A missing attribute (absent or empty-valued) reads as absent. -/
theorem gav_of_missing (dec : ByteStr → Option String) (record : LDAPRecord)
    (n : String) (h : attrMissing record n = true) :
    get_attribute_value dec record n = .ok none := by
  cases hl : alookup record n with
  | none => simp only [get_attribute_value, hl]
  | some vals =>
    cases vals with
    | nil => simp only [get_attribute_value, hl]
    | cons v vs =>
      simp only [attrMissing, hl] at h
      exact Bool.noConfusion h

/-- A decodable first value reads as that decoded value. -/
theorem gav_of_decodedFirst (dec : ByteStr → Option String) (record : LDAPRecord)
    (n : String) (s : String) (h : decodedFirst dec record n = some s) :
    get_attribute_value dec record n = .ok (some s) := by
  cases hl : alookup record n with
  | none =>
    simp only [decodedFirst, hl] at h
    exact Option.noConfusion h
  | some vals =>
    cases vals with
    | nil =>
      simp only [decodedFirst, hl] at h
      exact Option.noConfusion h
    | cons v vs =>
      simp only [decodedFirst, hl] at h
      simp only [get_attribute_value, hl, h]

/-- Lookup in a key-to-function association built by map. -/
theorem alookup_map_self (f : String → String) (names : List String) (n : String)
    (h : n ∈ names) :
    alookup (names.map (fun x => (x, f x))) n = some (f n) := by
  induction names with
  | nil => simp at h
  | cons m rest ih =>
    rcases List.mem_cons.mp h with h1 | h2
    · subst h1
      simp [alookup]
    · by_cases hm : m = n
      · subst hm; simp [alookup]
      · simp only [List.map_cons, alookup, hm, if_false]
        exact ih h2

/-- The generate_value loop, when some placeholder is missing:
values becomes absent and the loop reports a missing placeholder
name (the first one). -/
theorem generateValueGo_missing (dec : ByteStr → Option String) (record : LDAPRecord)
    (names : List String) (values : List (String × String)) (last : Option String)
    (hall : ∀ n ∈ names, attrMissing record n = true ∨ (decodedFirst dec record n).isSome = true)
    (hex : ∃ n ∈ names, attrMissing record n = true) :
    ∃ m ∈ names, attrMissing record m = true ∧
      generateValueGo dec record names values last = .ok (none, some m) := by
  induction names generalizing values last with
  | nil => simp at hex
  | cons n rest ih =>
    by_cases hn : attrMissing record n = true
    · refine ⟨n, List.mem_cons_self n rest, hn, ?_⟩
      simp only [generateValueGo, gav_of_missing dec record n hn]
    · have hres : (decodedFirst dec record n).isSome = true := by
        rcases hall n (List.mem_cons_self n rest) with h1 | h2
        · exact absurd h1 hn
        · exact h2
      obtain ⟨s, hs⟩ := Option.isSome_iff_exists.mp hres
      have hex2 : ∃ x ∈ rest, attrMissing record x = true := by
        obtain ⟨x, hx, hxm⟩ := hex
        rcases List.mem_cons.mp hx with h1 | h2
        · subst h1; exact absurd hxm hn
        · exact ⟨x, h2, hxm⟩
      obtain ⟨m, hm, hmm, hgo⟩ := ih (values ++ [(n, s)]) (some n)
        (fun x hx => hall x (List.mem_cons_of_mem n hx)) hex2
      refine ⟨m, List.mem_cons_of_mem n hm, hmm, ?_⟩
      simp only [generateValueGo, gav_of_decodedFirst dec record n s hs]
      exact hgo

/-- The generate_value loop, when every placeholder resolves: it
accumulates each decoded first value in order and reports the last
name examined. -/
theorem generateValueGo_resolved (dec : ByteStr → Option String) (record : LDAPRecord)
    (names : List String) (values : List (String × String)) (last : Option String)
    (hall : ∀ n ∈ names, (decodedFirst dec record n).isSome = true) :
    generateValueGo dec record names values last =
      .ok (some (values ++ names.map (fun n => (n, (decodedFirst dec record n).getD ""))),
        Option.or names.getLast? last) := by
  induction names generalizing values last with
  | nil => simp [generateValueGo, Option.or]
  | cons n rest ih =>
    obtain ⟨s, hs⟩ := Option.isSome_iff_exists.mp (hall n (List.mem_cons_self n rest))
    simp only [generateValueGo, gav_of_decodedFirst dec record n s hs]
    rw [ih (values ++ [(n, s)]) (some n) (fun x hx => hall x (List.mem_cons_of_mem n hx))]
    have h1 : values ++ [(n, s)] ++
        List.map (fun n => (n, (decodedFirst dec record n).getD "")) rest =
        values ++ List.map (fun n => (n, (decodedFirst dec record n).getD "")) (n :: rest) := by
      simp [hs, List.append_assoc]
    have h2 : Option.or rest.getLast? (some n) = Option.or (n :: rest).getLast? last := by
      cases rest with
      | nil => simp [Option.or]
      | cons b l =>
        rw [List.getLast?_cons_cons]
        cases hbl : (b :: l).getLast? with
        | none => simp at hbl
        | some x => simp [Option.or]
    rw [h1, h2]

/-- Substituting a fully bound value table into the parsed template
produces the spec's substitution. -/
theorem formatTemplate_ok (dec : ByteStr → Option String) (record : LDAPRecord)
    (items : List (String × Option String)) (values : List (String × String))
    (h : ∀ lit n, (lit, some n) ∈ items →
      alookup values n = some ((decodedFirst dec record n).getD "")) :
    formatTemplate items values = .ok (specSubst dec record items) := by
  induction items with
  | nil => rfl
  | cons p rest ih =>
    obtain ⟨lit, fOpt⟩ := p
    cases fOpt with
    | none =>
      simp only [formatTemplate, specSubst]
      rw [ih (fun l n hn => h l n (List.mem_cons_of_mem _ hn))]
    | some n =>
      have hl := h lit n (List.mem_cons_self _ rest)
      simp only [formatTemplate, specSubst, hl]
      rw [ih (fun l x hx => h l x (List.mem_cons_of_mem _ hx))]
      cases hd : decodedFirst dec record n with
      | none => simp [hd]
      | some s => simp [hd]

/-- A nonempty field name of the template is among the extracted
placeholder names. -/
theorem mem_attributeNamesOf (items : List (String × Option String)) (lit n : String)
    (hmem : (lit, some n) ∈ items) (hne : n.isEmpty = false) :
    n ∈ attributeNamesOf items := by
  apply List.mem_filterMap.mpr
  exact ⟨(lit, some n), hmem, by simp [hne]⟩

/-- C6: generate_value of a formatter with an absent template is
(absent, absent); with a placeholder missing from the record the
result is (absent, that missing placeholder's name); and when every
placeholder resolves, the template is returned with each placeholder
substituted by the attribute's decoded first value, together with
the last placeholder name examined. -/
theorem ldap_c6_generate_value (dec : ByteStr → Option String)
    (f : LDAPValueFormatter) (record : LDAPRecord) :
    (f.string_format = none → f.generate_value dec record = .ok (none, none)) ∧
    (∀ items, f.string_format = some items →
      (∀ n ∈ attributeNamesOf items,
        attrMissing record n = true ∨ (decodedFirst dec record n).isSome = true) →
      (∃ n ∈ attributeNamesOf items, attrMissing record n = true) →
      ∃ m ∈ attributeNamesOf items, attrMissing record m = true ∧
        f.generate_value dec record = .ok (none, some m)) ∧
    (∀ items, f.string_format = some items →
      (∀ p ∈ items, p.2 ≠ some "") →
      (∀ n ∈ attributeNamesOf items, (decodedFirst dec record n).isSome = true) →
      f.generate_value dec record =
        .ok (some (specSubst dec record items), (attributeNamesOf items).getLast?)) := by
  refine ⟨?_, ?_, ?_⟩
  · intro h
    simp only [LDAPValueFormatter.generate_value, h]
  · intro items hf hall hex
    obtain ⟨m, hm, hmm, hgo⟩ :=
      generateValueGo_missing dec record (attributeNamesOf items) [] none hall hex
    refine ⟨m, hm, hmm, ?_⟩
    simp only [LDAPValueFormatter.generate_value, hf, hgo]
  · intro items hf hne hall
    have hgo := generateValueGo_resolved dec record (attributeNamesOf items) [] none hall
    have hfmt : formatTemplate items
        ((attributeNamesOf items).map
          (fun n => (n, (decodedFirst dec record n).getD ""))) =
        .ok (specSubst dec record items) := by
      apply formatTemplate_ok
      intro lit n hmem
      have hn : n.isEmpty = false := by
        have := hne (lit, some n) hmem
        simp only [ne_eq, Option.some.injEq] at this
        cases he : n.isEmpty with
        | false => rfl
        | true => exact absurd ((String.isEmpty_iff n).mp he) this
      exact alookup_map_self (fun x => (decodedFirst dec record x).getD "")
        (attributeNamesOf items) n (mem_attributeNamesOf items lit n hmem hn)
    simp only [LDAPValueFormatter.generate_value, hf, hgo, List.nil_append,
      Option.or_none, hfmt]

/-- Witness for the C6 theorem: the template of one mail placeholder
on a record carrying mail resolves to the decoded address, and on an
empty record reports mail as the missing placeholder. -/
theorem ldap_c6_witness :
    (LDAPValueFormatter.generate_value ⟨some [("", some ("mail"))]⟩
      (fun _ => some ("a@x.com")) [(("mail"), [[1]])] =
        .ok (some ("a@x.com"), some ("mail"))) ∧
    (∃ m ∈ attributeNamesOf [("", some ("mail"))], attrMissing [] m = true ∧
      LDAPValueFormatter.generate_value ⟨some [("", some ("mail"))]⟩
        (fun _ => some ("a@x.com")) [] = .ok (none, some m)) := by
  constructor
  · have h := (ldap_c6_generate_value (fun _ => some ("a@x.com"))
      ⟨some [("", some ("mail"))]⟩ [(("mail"), [[1]])]).2.2 [("", some ("mail"))] rfl
      (by decide) (by decide)
    simpa using h
  · exact (ldap_c6_generate_value (fun _ => some ("a@x.com"))
      ⟨some [("", some ("mail"))]⟩ []).2.1 [("", some ("mail"))] rfl
      (by decide) (by decide)

/-! ### Concrete fixtures for counterexamples and witnesses -/

/-- A concrete decode oracle mapping a few byte values to fixed
strings. -/
def demoDec : ByteStr → Option String := fun bs =>
  match bs with
  | [1] => some ("a@x.com")
  | [2] => some ("bogus")
  | [3] => some ("b@x.com")
  | [4] => some ("federatedID")
  | _ => none

/-- The default email template of one mail placeholder. -/
def demoMailFmt : LDAPValueFormatter := ⟨some [("", some ("mail"))]⟩

/-- A connector configuration with the default formatters. -/
def demoCfg : FormatterConfig :=
  { email_formatter := demoMailFmt
    identity_type_formatter := ⟨none⟩
    username_formatter := ⟨none⟩
    domain_formatter := ⟨none⟩
    user_identity_type := "federatedID" }

/-- A record with a mail attribute only. -/
def demoRecord : LDAPRecord := [(("mail"), [[1]])]

/-- A group query matched by one directory group whose member search
returns the one record for dn u1. -/
def demoGroupQuery : GroupQuery := ⟨"g", [some ("cn=g")], [(some ("u1"), demoRecord)]⟩

/-- A normalized user already carrying the group tag g. -/
def demoUser : LDAPUser :=
  { email := "a@x.com", identity_type := "federatedID", username := "a@x.com",
    domain := none, firstname := none, lastname := none, country := none,
    uid := none, source_attributes := [], groups := ["g"] }

/-- The group list of a dn in the cache a load returned, none when
the load failed or the dn is unknown. -/
def groupsOf (r : Except String (List (String × LDAPUser) × List String))
    (dn : String) : Option (List String) :=
  match r with
  | .ok (c, _) => (alookup c dn).map (fun u => u.groups)
  | .error _ => none

/-! ### Lemmas about the session cache -/

/-- appendGroup only rewrites the binding of the dn it targets,
appending one copy of the group name to that record's group list. -/
theorem appendGroup_alookup (cache : List (String × LDAPUser)) (dn g d : String) :
    alookup (appendGroup cache dn g) d =
      if d = dn then
        (alookup cache dn).map (fun u => { u with groups := u.groups ++ [g] })
      else alookup cache d := by
  induction cache with
  | nil =>
    simp only [appendGroup, alookup]
    split <;> rfl
  | cons p t ih =>
    obtain ⟨k, v⟩ := p
    by_cases hk : k = dn
    · subst hk
      have e1 : appendGroup ((k, v) :: t) k g =
          (k, { v with groups := v.groups ++ [g] }) :: t := by
        simp [appendGroup]
      rw [e1]
      by_cases hd : d = k
      · subst hd
        simp [alookup]
      · have hd2 : ¬k = d := fun h => hd h.symm
        simp [alookup, hd, hd2]
    · have e1 : appendGroup ((k, v) :: t) dn g = (k, v) :: appendGroup t dn g := by
        simp [appendGroup, hk]
      rw [e1]
      by_cases hd : k = d
      · subst hd
        have hd2 : ¬k = dn := hk
        simp [alookup, hd2]
      · simp [alookup, hd, hk, ih]

/-- appendGroup leaves the key sequence of the cache unchanged. -/
theorem appendGroup_keys (cache : List (String × LDAPUser)) (dn g : String) :
    (appendGroup cache dn g).map Prod.fst = cache.map Prod.fst := by
  induction cache with
  | nil => rfl
  | cons p t ih =>
    obtain ⟨k, v⟩ := p
    by_cases hk : k = dn
    · subst hk
      simp [appendGroup]
    · simp [appendGroup, hk, ih]

/-- C1 counterexample: requesting the same group twice makes the
unconditional user['groups'].append(group) deliver a duplicate
group tag — after the load, u1's group list is [g, g], not [g]. -/
theorem ldap_c1_counterexample :
    groupsOf (load_users_and_groups demoDec demoCfg []
      [demoGroupQuery, demoGroupQuery] false [] []) ("u1") = some ["g", "g"] := by
  decide

/-- C1 as amended: a cache hit returns the cached record unchanged
without re-deriving anything from the raw record, and a group tag is
appended to the record's group list unconditionally — one copy per
application, even when the group is already present. -/
theorem ldap_c1_amended (dec : ByteStr → Option String) (cfg : FormatterConfig)
    (extA : List String) (cache : List (String × LDAPUser)) (dn : String)
    (u : LDAPUser) (record : LDAPRecord) (g : String) :
    (alookup cache dn = some u →
      processEntry dec cfg extA cache (some dn) record = .ok (cache, some (dn, u), [])) ∧
    (alookup cache dn = some u →
      alookup (appendGroup cache dn g) dn =
        some { u with groups := u.groups ++ [g] }) := by
  constructor
  · intro h
    simp only [processEntry, h]
  · intro h
    rw [appendGroup_alookup, if_pos rfl, h]
    rfl

/-- Witness for the amended C1 theorem at a one-record cache. -/
theorem ldap_c1_amended_witness :
    (processEntry demoDec demoCfg [] [(("u1"), demoUser)] (some ("u1")) [] =
      .ok ([(("u1"), demoUser)], some (("u1"), demoUser), [])) ∧
    (alookup (appendGroup [(("u1"), demoUser)] ("u1") ("g")) ("u1") =
      some { demoUser with groups := demoUser.groups ++ [("g" : String)] }) := by
  constructor
  · exact (ldap_c1_amended demoDec demoCfg [] [(("u1"), demoUser)]
      ("u1") demoUser [] ("g")).1 rfl
  · exact (ldap_c1_amended demoDec demoCfg [] [(("u1"), demoUser)]
      ("u1") demoUser [] ("g")).2 rfl

/-! ### Invalid identity-type handling (C2, C3) -/

/-- The situation of iter_users lines 218-230 on a fresh dn: the
record derives a non-empty email and a truthy identity-type value
that the enumeration rejects. -/
def invalidIdentityTypeEntry (dec : ByteStr → Option String) (cfg : FormatterConfig)
    (record : LDAPRecord) : Prop :=
  (∃ e a, cfg.email_formatter.generate_value dec record = .ok (some e, a) ∧
    pyFalsy (pyStrip (some e)) = false) ∧
  (∃ it a, cfg.identity_type_formatter.generate_value dec record = .ok (some it, a) ∧
    it.isEmpty = false ∧ (∃ m, parse_identity_type it = .error m))

/-- On such a record the builder produces no user and exactly the
skip warning carrying the parse error. -/
theorem deriveNewUser_invalid_idtype (dec : ByteStr → Option String)
    (cfg : FormatterConfig) (extA : List String) (dn : String) (record : LDAPRecord)
    (h : invalidIdentityTypeEntry dec cfg record) :
    ∃ m, deriveNewUser dec cfg extA dn record =
      .ok (none, ["Skipping user with dn " ++ dn ++ ": " ++ m]) := by
  obtain ⟨⟨e, a, hmail, hef⟩, it, a2, hit, hitne, m, hparse⟩ := h
  refine ⟨m, ?_⟩
  have hpf : pyFalsy (some it) = false := by simp [pyFalsy, hitne]
  simp only [deriveNewUser, hmail, hef, Bool.false_eq_true, if_false, hit, hpf,
    Bool.and_false, Option.getD_some, hparse, List.nil_append]

/-- C3: a record whose identity-type value falls outside the
enumeration is excluded — nothing is cached or yielded for it — a
warning is recorded, and the load continues: the remaining records
are processed exactly as without it. -/
theorem ldap_c3_invalid_identity_type_skips (dec : ByteStr → Option String)
    (cfg : FormatterConfig) (extA : List String) (cache : List (String × LDAPUser))
    (dn : String) (record : LDAPRecord) (rest : List (Option String × LDAPRecord))
    (hfresh : alookup cache dn = none)
    (h : invalidIdentityTypeEntry dec cfg record) :
    ∃ w, iterUsersGo dec cfg extA cache ((some dn, record) :: rest) =
      (match iterUsersGo dec cfg extA cache rest with
       | .ok (c, ys, ws) => .ok (c, ys, w :: ws)
       | .error e => .error e) := by
  obtain ⟨m, hderive⟩ := deriveNewUser_invalid_idtype dec cfg extA dn record h
  refine ⟨"Skipping user with dn " ++ dn ++ ": " ++ m, ?_⟩
  simp only [iterUsersGo, processEntry, hfresh, hderive]
  cases hrest : iterUsersGo dec cfg extA cache rest with
  | error e => rfl
  | ok p =>
    obtain ⟨c2, ys2, ws2⟩ := p
    simp

/-- A connector configuration that also derives identity_type from
the itype attribute. -/
def demoCfgIdType : FormatterConfig :=
  { demoCfg with identity_type_formatter := ⟨some [("", some ("itype"))]⟩ }

/-- A record whose itype decodes to the invalid value bogus. -/
def demoRecordBad : LDAPRecord := [(("mail"), [[1]]), (("itype"), [[2]])]

/-- A record whose itype decodes to the valid value federatedID. -/
def demoRecordGood : LDAPRecord := [(("mail"), [[3]]), (("itype"), [[4]])]

/-- Witness for the C3 theorem: the bogus record is skipped with a
warning while the following good record still loads. -/
theorem ldap_c3_witness :
    ∃ w, iterUsersGo demoDec demoCfgIdType [] []
        [(some ("u1"), demoRecordBad), (some ("u2"), demoRecordGood)] =
      (match iterUsersGo demoDec demoCfgIdType [] [] [(some ("u2"), demoRecordGood)] with
       | .ok (c, ys, ws) => .ok (c, ys, w :: ws)
       | .error e => .error e) :=
  ldap_c3_invalid_identity_type_skips demoDec demoCfgIdType [] [] ("u1")
    demoRecordBad [(some ("u2"), demoRecordGood)] rfl
    ⟨⟨"a@x.com", some ("mail"), rfl, rfl⟩,
     ⟨"bogus", some ("itype"), rfl, rfl,
      ⟨"Unrecognized identity type: bogus", rfl⟩⟩⟩

/-- C2 counterexample: a record carrying the invalid identity-type
value bogus does not abort load_users_and_groups — the load returns
normally and the subsequent record u2 is still loaded. -/
theorem ldap_c2_counterexample :
    (∃ m, parse_identity_type ("bogus") = .error m) ∧
    (∃ a, demoCfgIdType.identity_type_formatter.generate_value demoDec demoRecordBad =
      .ok (some ("bogus"), a)) ∧
    (∃ c ws, load_users_and_groups demoDec demoCfgIdType []
        [⟨"g", [some ("cn=g")],
          [(some ("u1"), demoRecordBad), (some ("u2"), demoRecordGood)]⟩]
        false [] [] = .ok (c, ws) ∧ (alookup c ("u2")).isSome = true ∧
        alookup c ("u1") = none) := by
  refine ⟨⟨"Unrecognized identity type: bogus", rfl⟩, ⟨some ("itype"), rfl⟩, ?_⟩
  refine ⟨_, _, rfl, ?_, ?_⟩ <;> decide

/-- C2 as amended: an identity-type value outside the enumeration is
a per-record anomaly, not a fatal one — the offending record is
dropped with one warning and load_users_and_groups behaves exactly
as if the backend had not returned that record. -/
theorem ldap_c2_amended (dec : ByteStr → Option String) (cfg : FormatterConfig)
    (extAttrs : List String) (gname : String) (gs : List (Option String))
    (dnv dn : String) (record : LDAPRecord)
    (rest : List (Option String × LDAPRecord)) (moreGs : List GroupQuery)
    (au : Bool) (ae : List (Option String × LDAPRecord))
    (cache : List (String × LDAPUser))
    (hfind : find_ldap_group_dn gname gs = .ok (some dnv))
    (hfresh : alookup cache dn = none)
    (h : invalidIdentityTypeEntry dec cfg record) :
    ∃ w, load_users_and_groups dec cfg extAttrs
        (⟨gname, gs, (some dn, record) :: rest⟩ :: moreGs) au ae cache =
      (match load_users_and_groups dec cfg extAttrs (⟨gname, gs, rest⟩ :: moreGs)
          au ae cache with
       | .ok (c, ws) => .ok (c, w :: ws)
       | .error e => .error e) := by
  obtain ⟨m, hderive⟩ := deriveNewUser_invalid_idtype dec cfg
    (filteredExtendedAttributes cfg extAttrs) dn record h
  refine ⟨"Skipping user with dn " ++ dn ++ ": " ++ m, ?_⟩
  have hpgm : processGroupMembersGo dec cfg (filteredExtendedAttributes cfg extAttrs)
      gname cache ((some dn, record) :: rest) =
      (match processGroupMembersGo dec cfg (filteredExtendedAttributes cfg extAttrs)
          gname cache rest with
       | .ok (c, ws) => .ok (c, ("Skipping user with dn " ++ dn ++ ": " ++ m) :: ws)
       | .error e => .error e) := by
    simp only [processGroupMembersGo, processEntry, hfresh, hderive]
    cases hrest : processGroupMembersGo dec cfg (filteredExtendedAttributes cfg extAttrs)
        gname cache rest with
    | error e => rfl
    | ok p =>
      obtain ⟨c2, ws2⟩ := p
      simp
  simp only [load_users_and_groups, loadGroupsPhase, hfind, hpgm]
  cases hrest : processGroupMembersGo dec cfg (filteredExtendedAttributes cfg extAttrs)
      gname cache rest with
  | error e => simp only [hrest]
  | ok p =>
    obtain ⟨c1, ws1⟩ := p
    simp only [hrest]
    cases hmore : loadGroupsPhase dec cfg (filteredExtendedAttributes cfg extAttrs)
        c1 moreGs with
    | error e => simp only [hmore]
    | ok q =>
      obtain ⟨c2, ws2⟩ := q
      simp only [hmore, List.cons_append]
      cases au with
      | false => simp
      | true =>
        cases hiter : iter_users dec cfg extAttrs c2 ae with
        | error e => simp [hiter]
        | ok r =>
          obtain ⟨c3, ys3⟩ := r
          simp [hiter]

/-- Witness for the amended C2 theorem at the concrete bogus
record. -/
theorem ldap_c2_amended_witness :
    ∃ w, load_users_and_groups demoDec demoCfgIdType []
        [⟨"g", [some ("cn=g")],
          [(some ("u1"), demoRecordBad), (some ("u2"), demoRecordGood)]⟩]
        false [] [] =
      (match load_users_and_groups demoDec demoCfgIdType []
          [⟨"g", [some ("cn=g")], [(some ("u2"), demoRecordGood)]⟩] false [] [] with
       | .ok (c, ws) => .ok (c, w :: ws)
       | .error e => .error e) :=
  ldap_c2_amended demoDec demoCfgIdType [] ("g") [some ("cn=g")] ("cn=g") ("u1")
    demoRecordBad [(some ("u2"), demoRecordGood)] [] false [] [] rfl rfl
    ⟨⟨"a@x.com", some ("mail"), rfl, rfl⟩,
     ⟨"bogus", some ("itype"), rfl, rfl,
      ⟨"Unrecognized identity type: bogus", rfl⟩⟩⟩

/-! ### Cache monotonicity (C8) -/

/-- One cache state evolves into another when every record survives
with all fields intact except for group names appended to its group
list. -/
def cacheEvolves (c c2 : List (String × LDAPUser)) : Prop :=
  ∀ dn u, alookup c dn = some u →
    ∃ gs, alookup c2 dn = some { u with groups := u.groups ++ gs }

theorem cacheEvolves_refl (c : List (String × LDAPUser)) : cacheEvolves c c :=
  fun _ u h => ⟨[], by rw [h]; simp⟩

theorem cacheEvolves_trans {c1 c2 c3 : List (String × LDAPUser)}
    (h1 : cacheEvolves c1 c2) (h2 : cacheEvolves c2 c3) : cacheEvolves c1 c3 := by
  intro dn u h
  obtain ⟨gs, hg⟩ := h1 dn u h
  obtain ⟨gs2, hg2⟩ := h2 dn _ hg
  refine ⟨gs ++ gs2, ?_⟩
  rw [hg2]
  simp [List.append_assoc]

/-- Appending fresh bindings on the right never disturbs an existing
lookup. -/
theorem alookup_append_left {α : Type} (c c2 : List (String × α)) (d : String)
    (u : α) (h : alookup c d = some u) : alookup (c ++ c2) d = some u := by
  induction c with
  | nil => simp [alookup] at h
  | cons p t ih =>
    obtain ⟨k, v⟩ := p
    simp only [List.cons_append, alookup] at h ⊢
    by_cases hk : k = d
    · simpa [hk] using h
    · simp only [if_neg hk] at h ⊢
      exact ih h

/-- A dn that does not look up is not among the cache keys. -/
theorem alookup_none_not_mem {α : Type} (c : List (String × α)) (d : String)
    (h : alookup c d = none) : d ∉ c.map Prod.fst := by
  induction c with
  | nil => simp
  | cons p t ih =>
    obtain ⟨k, v⟩ := p
    by_cases hk : k = d
    · subst hk
      simp [alookup] at h
    · simp only [alookup, if_neg hk] at h
      simp only [List.map_cons, List.mem_cons]
      rintro (h1 | h2)
      · exact hk h1.symm
      · exact ih h h2

theorem cacheEvolves_append (c : List (String × LDAPUser)) (dn : String)
    (u : LDAPUser) : cacheEvolves c (c ++ [(dn, u)]) :=
  fun _ v h => ⟨[], by rw [alookup_append_left _ _ _ _ h]; simp⟩

theorem cacheEvolves_appendGroup (c : List (String × LDAPUser)) (dn g : String) :
    cacheEvolves c (appendGroup c dn g) := by
  intro d u h
  rw [appendGroup_alookup]
  by_cases hd : d = dn
  · subst hd
    exact ⟨[g], by rw [if_pos rfl, h]; rfl⟩
  · exact ⟨[], by rw [if_neg hd, h]; simp⟩

/-- processEntry either leaves the cache alone or appends exactly
one fresh binding at the end. -/
theorem processEntry_cache_shape (dec : ByteStr → Option String)
    (cfg : FormatterConfig) (extA : List String) (cache : List (String × LDAPUser))
    (dnOpt : Option String) (record : LDAPRecord)
    (c1 : List (String × LDAPUser)) (y : Option (String × LDAPUser)) (w : List String)
    (h : processEntry dec cfg extA cache dnOpt record = .ok (c1, y, w)) :
    c1 = cache ∨ ∃ dn user, dnOpt = some dn ∧ alookup cache dn = none ∧
      c1 = cache ++ [(dn, user)] := by
  cases dnOpt with
  | none =>
    simp only [processEntry, Except.ok.injEq, Prod.mk.injEq] at h
    exact Or.inl h.1.symm
  | some dn =>
    cases hc : alookup cache dn with
    | some u =>
      simp only [processEntry, hc, Except.ok.injEq, Prod.mk.injEq] at h
      exact Or.inl h.1.symm
    | none =>
      cases hd : deriveNewUser dec cfg extA dn record with
      | error e =>
        simp only [processEntry, hc, hd] at h
        exact Except.noConfusion h
      | ok p =>
        obtain ⟨uo, ws⟩ := p
        cases uo with
        | none =>
          simp only [processEntry, hc, hd, Except.ok.injEq, Prod.mk.injEq] at h
          exact Or.inl h.1.symm
        | some user =>
          simp only [processEntry, hc, hd, Except.ok.injEq, Prod.mk.injEq] at h
          exact Or.inr ⟨dn, user, rfl, hc, h.1.symm⟩

/-- One builder step preserves every cached record (up to appended
groups) and the distinctness of the cache keys. -/
theorem processEntry_evolves (dec : ByteStr → Option String) (cfg : FormatterConfig)
    (extA : List String) (cache : List (String × LDAPUser)) (dnOpt : Option String)
    (record : LDAPRecord) (c1 : List (String × LDAPUser))
    (y : Option (String × LDAPUser)) (w : List String)
    (h : processEntry dec cfg extA cache dnOpt record = .ok (c1, y, w)) :
    cacheEvolves cache c1 ∧
      ((cache.map Prod.fst).Nodup → (c1.map Prod.fst).Nodup) := by
  rcases processEntry_cache_shape dec cfg extA cache dnOpt record c1 y w h with
    heq | ⟨dn, user, _, hfresh, heq⟩
  · rw [heq]
    exact ⟨cacheEvolves_refl cache, id⟩
  · rw [heq]
    refine ⟨cacheEvolves_append cache dn user, ?_⟩
    intro hnd
    rw [List.map_append]
    rw [List.nodup_append]
    refine ⟨hnd, List.nodup_singleton dn, ?_⟩
    intro x hx hx2
    simp only [List.map_cons, List.map_nil, List.mem_singleton] at hx2
    subst hx2
    exact alookup_none_not_mem cache x hfresh hx

theorem processGroupMembersGo_evolves (dec : ByteStr → Option String)
    (cfg : FormatterConfig) (extA : List String) (group : String) :
    ∀ (entries : List (Option String × LDAPRecord)) (cache c1 : List (String × LDAPUser))
      (ws : List String),
      processGroupMembersGo dec cfg extA group cache entries = .ok (c1, ws) →
      cacheEvolves cache c1 ∧
        ((cache.map Prod.fst).Nodup → (c1.map Prod.fst).Nodup) := by
  intro entries
  induction entries with
  | nil =>
    intro cache c1 ws h
    simp only [processGroupMembersGo, Except.ok.injEq, Prod.mk.injEq] at h
    rw [← h.1]
    exact ⟨cacheEvolves_refl cache, id⟩
  | cons e rest ih =>
    intro cache c1 ws h
    obtain ⟨dnOpt, record⟩ := e
    cases hpe : processEntry dec cfg extA cache dnOpt record with
    | error e2 =>
      simp only [processGroupMembersGo, hpe] at h
      exact Except.noConfusion h
    | ok p =>
      obtain ⟨cA, yOpt, ws1⟩ := p
      have s1 := processEntry_evolves dec cfg extA cache dnOpt record cA yOpt ws1 hpe
      cases yOpt with
      | none =>
        simp only [processGroupMembersGo, hpe] at h
        cases hr : processGroupMembersGo dec cfg extA group cA rest with
        | error e2 =>
          simp only [hr] at h
          exact Except.noConfusion h
        | ok q =>
          obtain ⟨c2, ws2⟩ := q
          simp only [hr, Except.ok.injEq, Prod.mk.injEq] at h
          obtain ⟨h1, _⟩ := h
          rw [← h1]
          have s3 := ih cA c2 ws2 hr
          exact ⟨cacheEvolves_trans s1.1 s3.1, fun hn => s3.2 (s1.2 hn)⟩
      | some du =>
        obtain ⟨d, u⟩ := du
        simp only [processGroupMembersGo, hpe] at h
        cases hr : processGroupMembersGo dec cfg extA group (appendGroup cA d group)
            rest with
        | error e2 =>
          simp only [hr] at h
          exact Except.noConfusion h
        | ok q =>
          obtain ⟨c2, ws2⟩ := q
          simp only [hr, Except.ok.injEq, Prod.mk.injEq] at h
          obtain ⟨h1, _⟩ := h
          rw [← h1]
          have s2 : cacheEvolves cA (appendGroup cA d group) ∧
              ((cA.map Prod.fst).Nodup →
                ((appendGroup cA d group).map Prod.fst).Nodup) := by
            refine ⟨cacheEvolves_appendGroup cA d group, ?_⟩
            rw [appendGroup_keys]
            exact id
          have s3 := ih (appendGroup cA d group) c2 ws2 hr
          exact ⟨cacheEvolves_trans (cacheEvolves_trans s1.1 s2.1) s3.1,
            fun hn => s3.2 (s2.2 (s1.2 hn))⟩

theorem iterUsersGo_evolves (dec : ByteStr → Option String) (cfg : FormatterConfig)
    (extA : List String) :
    ∀ (entries : List (Option String × LDAPRecord)) (cache c1 : List (String × LDAPUser))
      (ys : List (String × LDAPUser)) (ws : List String),
      iterUsersGo dec cfg extA cache entries = .ok (c1, ys, ws) →
      cacheEvolves cache c1 ∧
        ((cache.map Prod.fst).Nodup → (c1.map Prod.fst).Nodup) := by
  intro entries
  induction entries with
  | nil =>
    intro cache c1 ys ws h
    simp only [iterUsersGo, Except.ok.injEq, Prod.mk.injEq] at h
    rw [← h.1]
    exact ⟨cacheEvolves_refl cache, id⟩
  | cons e rest ih =>
    intro cache c1 ys ws h
    obtain ⟨dnOpt, record⟩ := e
    cases hpe : processEntry dec cfg extA cache dnOpt record with
    | error e2 =>
      simp only [iterUsersGo, hpe] at h
      exact Except.noConfusion h
    | ok p =>
      obtain ⟨cA, yOpt, ws1⟩ := p
      simp only [iterUsersGo, hpe] at h
      cases hr : iterUsersGo dec cfg extA cA rest with
      | error e2 =>
        simp only [hr] at h
        exact Except.noConfusion h
      | ok q =>
        obtain ⟨c2, ys2, ws2⟩ := q
        simp only [hr, Except.ok.injEq, Prod.mk.injEq] at h
        obtain ⟨h1, _⟩ := h
        rw [← h1]
        have s1 := processEntry_evolves dec cfg extA cache dnOpt record cA yOpt ws1 hpe
        have s3 := ih cA c2 ys2 ws2 hr
        exact ⟨cacheEvolves_trans s1.1 s3.1, fun hn => s3.2 (s1.2 hn)⟩

theorem loadGroupsPhase_evolves (dec : ByteStr → Option String) (cfg : FormatterConfig)
    (extA : List String) :
    ∀ (gqs : List GroupQuery) (cache c1 : List (String × LDAPUser)) (ws : List String),
      loadGroupsPhase dec cfg extA cache gqs = .ok (c1, ws) →
      cacheEvolves cache c1 ∧
        ((cache.map Prod.fst).Nodup → (c1.map Prod.fst).Nodup) := by
  intro gqs
  induction gqs with
  | nil =>
    intro cache c1 ws h
    simp only [loadGroupsPhase, Except.ok.injEq, Prod.mk.injEq] at h
    rw [← h.1]
    exact ⟨cacheEvolves_refl cache, id⟩
  | cons gq rest ih =>
    intro cache c1 ws h
    cases hf : find_ldap_group_dn gq.name gq.groupSearch with
    | error e =>
      simp only [loadGroupsPhase, hf] at h
      exact Except.noConfusion h
    | ok dnOpt =>
      cases dnOpt with
      | none =>
        simp only [loadGroupsPhase, hf] at h
        cases hr : loadGroupsPhase dec cfg extA cache rest with
        | error e =>
          simp only [hr] at h
          exact Except.noConfusion h
        | ok q =>
          obtain ⟨c2, ws2⟩ := q
          simp only [hr, Except.ok.injEq, Prod.mk.injEq] at h
          obtain ⟨h1, _⟩ := h
          rw [← h1]
          exact ih cache c2 ws2 hr
      | some gdn =>
        simp only [loadGroupsPhase, hf] at h
        cases hm : processGroupMembersGo dec cfg extA gq.name cache gq.members with
        | error e =>
          simp only [hm] at h
          exact Except.noConfusion h
        | ok p =>
          obtain ⟨cA, ws1⟩ := p
          simp only [hm] at h
          cases hr : loadGroupsPhase dec cfg extA cA rest with
          | error e =>
            simp only [hr] at h
            exact Except.noConfusion h
          | ok q =>
            obtain ⟨c2, ws2⟩ := q
            simp only [hr, Except.ok.injEq, Prod.mk.injEq] at h
            obtain ⟨h1, _⟩ := h
            rw [← h1]
            have s1 := processGroupMembersGo_evolves dec cfg extA gq.name gq.members
              cache cA ws1 hm
            have s2 := ih cA c2 ws2 hr
            exact ⟨cacheEvolves_trans s1.1 s2.1, fun hn => s2.2 (s1.2 hn)⟩

/-- C8: the session cache only grows during load_users_and_groups:
a record, once inserted for a dn, is never removed or replaced, its
non-group fields never change, only its group list gets group names
appended, and distinct keys stay distinct (each dn is inserted at
most once). -/
theorem ldap_c8_cache_monotone (dec : ByteStr → Option String)
    (cfg : FormatterConfig) (extAttrs : List String) (gqs : List GroupQuery)
    (au : Bool) (ae : List (Option String × LDAPRecord))
    (cache c1 : List (String × LDAPUser)) (ws : List String)
    (h : load_users_and_groups dec cfg extAttrs gqs au ae cache = .ok (c1, ws)) :
    cacheEvolves cache c1 ∧
      ((cache.map Prod.fst).Nodup → (c1.map Prod.fst).Nodup) := by
  cases hg : loadGroupsPhase dec cfg (filteredExtendedAttributes cfg extAttrs)
      cache gqs with
  | error e =>
    simp only [load_users_and_groups, hg] at h
    exact Except.noConfusion h
  | ok p =>
    obtain ⟨cA, ws1⟩ := p
    simp only [load_users_and_groups, hg] at h
    have s1 := loadGroupsPhase_evolves dec cfg (filteredExtendedAttributes cfg extAttrs)
      gqs cache cA ws1 hg
    cases au with
    | false =>
      simp only [Bool.false_eq_true, if_false, Except.ok.injEq, Prod.mk.injEq] at h
      rw [← h.1]
      exact s1
    | true =>
      simp only [if_true] at h
      cases hi : iter_users dec cfg extAttrs cA ae with
      | error e =>
        simp only [hi] at h
        exact Except.noConfusion h
      | ok q =>
        obtain ⟨c2, ys2, ws2⟩ := q
        simp only [hi, Except.ok.injEq, Prod.mk.injEq] at h
        obtain ⟨h1, _⟩ := h
        rw [← h1]
        have s2 := iterUsersGo_evolves dec cfg (filteredExtendedAttributes cfg extAttrs)
          ae cA c2 ys2 ws2 hi
        exact ⟨cacheEvolves_trans s1.1 s2.1, fun hn => s2.2 (s1.2 hn)⟩

/-- The record the demo load builds for dn u1. -/
def demoLoadedUser : LDAPUser :=
  { email := "a@x.com", identity_type := "federatedID", username := "a@x.com",
    domain := none, firstname := none, lastname := none, country := none,
    uid := none,
    source_attributes :=
      [("email", some ("a@x.com")), ("identity_type", none), ("username", none),
       ("domain", none), ("givenName", none), ("sn", none), ("c", none),
       ("uid", none)],
    groups := ["g"] }

/-- Witness for the C8 theorem on a concrete run that both keeps an
existing record and inserts a fresh one. -/
theorem ldap_c8_witness :
    cacheEvolves [(("u0"), demoUser)]
        [(("u0"), demoUser), (("u1"), demoLoadedUser)] ∧
      ((([(("u0"), demoUser)] : List (String × LDAPUser)).map Prod.fst).Nodup →
        (([(("u0"), demoUser), (("u1"), demoLoadedUser)] :
          List (String × LDAPUser)).map Prod.fst).Nodup) :=
  ldap_c8_cache_monotone demoDec demoCfg [] [demoGroupQuery] false []
    [(("u0"), demoUser)] [(("u0"), demoUser), (("u1"), demoLoadedUser)] []
    rfl

/-! ### Paged-search ordering (C4) -/

/-- Shape of the loop trace on a response missing the paging
control. -/
theorem iterSearchGo_eq_noctrl {α : Type} (m : Nat) (p : SearchPage α)
    (rest : List (SearchPage α)) (h : p.ctrlPresent = false) :
    iterSearchGo m (p :: rest) =
      PageEvent.result m :: PageEvent.warnControlIgnored ::
        p.entries.map PageEvent.yieldEntry := by
  simp [iterSearchGo, h]

/-- Shape of the loop trace on the final page (empty cookie). -/
theorem iterSearchGo_eq_final {α : Type} (m : Nat) (p : SearchPage α)
    (rest : List (SearchPage α)) (h1 : p.ctrlPresent = true) (h2 : p.cookie = "") :
    iterSearchGo m (p :: rest) =
      PageEvent.result m :: p.entries.map PageEvent.yieldEntry := by
  simp [iterSearchGo, h1, h2]

/-- Shape of the loop trace on a non-final page: the next request is
issued right after the response read, before the page's yields. -/
theorem iterSearchGo_eq_next {α : Type} (m : Nat) (p : SearchPage α)
    (rest : List (SearchPage α)) (h1 : p.ctrlPresent = true) (h2 : ¬p.cookie = "") :
    iterSearchGo m (p :: rest) =
      PageEvent.result m :: PageEvent.search (m + 1) ::
        (p.entries.map PageEvent.yieldEntry ++ iterSearchGo (m + 1) rest) := by
  simp [iterSearchGo, h1, h2]

/-- A position inside the mapped yields never holds a search
event. -/
theorem map_yield_ne_search {α : Type} (es : List α) (i k : Nat) :
    (es.map (PageEvent.yieldEntry (α := α)))[i]? ≠ some (PageEvent.search k) := by
  rw [List.getElem?_map]
  cases es[i]? <;> simp

/-- The loop trace always starts by reading the pending response. -/
theorem iterSearchGo_head {α : Type} (m : Nat) (ps : List (SearchPage α)) :
    (iterSearchGo m ps)[0]? = some (PageEvent.result m) := by
  cases ps with
  | nil => simp [iterSearchGo]
  | cons p rest =>
    cases hc : p.ctrlPresent with
    | false => rw [iterSearchGo_eq_noctrl m p rest hc]; simp
    | true =>
      by_cases hck : p.cookie = ""
      · rw [iterSearchGo_eq_final m p rest hc hck]; simp
      · rw [iterSearchGo_eq_next m p rest hc hck]; simp

/-- In the loop trace, every next-page request sits immediately
after the response read of the previous page. -/
theorem iterSearchGo_search_after_result {α : Type} :
    ∀ (ps : List (SearchPage α)) (m j k : Nat),
      (iterSearchGo m ps)[j + 1]? = some (PageEvent.search (k + 1)) →
      (iterSearchGo m ps)[j]? = some (PageEvent.result k) := by
  intro ps
  induction ps with
  | nil =>
    intro m j k h
    simp [iterSearchGo] at h
  | cons p rest ih =>
    intro m j k h
    cases hc : p.ctrlPresent with
    | false =>
      rw [iterSearchGo_eq_noctrl m p rest hc] at h
      rw [List.getElem?_cons_succ] at h
      cases j with
      | zero => simp at h
      | succ j2 =>
        rw [List.getElem?_cons_succ] at h
        exact absurd h (map_yield_ne_search p.entries j2 (k + 1))
    | true =>
      by_cases hck : p.cookie = ""
      · rw [iterSearchGo_eq_final m p rest hc hck] at h
        rw [List.getElem?_cons_succ] at h
        exact absurd h (map_yield_ne_search p.entries j (k + 1))
      · rw [iterSearchGo_eq_next m p rest hc hck] at h ⊢
        rw [List.getElem?_cons_succ] at h
        cases j with
        | zero =>
          rw [List.getElem?_cons_zero] at h
          have hm : m = k := by
            have h2 := Option.some.inj h
            injection h2 with h3
            omega
          rw [List.getElem?_cons_zero, hm]
        | succ j2 =>
          rw [List.getElem?_cons_succ] at h
          rw [List.getElem?_cons_succ]
          cases j2 with
          | zero =>
            exfalso
            by_cases hlen : 0 < p.entries.length
            · rw [List.getElem?_append_left (by simpa using hlen)] at h
              exact absurd h (map_yield_ne_search p.entries 0 (k + 1))
            · have hz : p.entries.length = 0 := by omega
              rw [List.getElem?_append_right (by simp [hz])] at h
              rw [List.length_map, hz, Nat.sub_zero, iterSearchGo_head (m + 1) rest] at h
              simp at h
          | succ j3 =>
            rw [List.getElem?_cons_succ]
            by_cases hlen : j3 + 1 < p.entries.length
            · exfalso
              rw [List.getElem?_append_left
                (by rw [List.length_map]; exact hlen)] at h
              exact absurd h (map_yield_ne_search p.entries (j3 + 1) (k + 1))
            · have hge : p.entries.length ≤ j3 + 1 := by omega
              rw [List.getElem?_append_right
                (by rw [List.length_map]; exact hge), List.length_map] at h
              by_cases hz : j3 + 1 - p.entries.length = 0
              · exfalso
                rw [hz, iterSearchGo_head (m + 1) rest] at h
                simp at h
              · obtain ⟨i, hi⟩ : ∃ i, j3 + 1 - p.entries.length = i + 1 :=
                  ⟨j3 + 1 - p.entries.length - 1, by omega⟩
                rw [hi] at h
                have hres := ih (m + 1) i k h
                have hge2 : p.entries.length ≤ j3 := by omega
                rw [List.getElem?_append_right
                  (by rw [List.length_map]; exact hge2), List.length_map]
                have hsub : j3 - p.entries.length = i := by omega
                rw [hsub]
                exact hres

/-- C4 counterexample: on a two-page backend the trace is
search 0, result 0, search 1, yield, result 1, yield — the entry of
page 0 is yielded only after the request for page 1 has been issued,
violating the claimed ordering. -/
theorem ldap_c4_counterexample :
    ¬ (∀ (pages : List (SearchPage Nat)),
      pageYieldsPrecedeNextRequest (iterSearchTrace pages)) := by
  intro h
  have h2 := h [⟨[1], "c", true⟩, ⟨[2], "", true⟩] 2 4 1 (by decide) (by decide)
    3 (by omega) (by omega) 1
  exact h2 (by decide)

/-- C4 as amended: the request for the next page is issued
immediately after the current page's response is read — hence before
any entry of the current page is yielded — rather than after the
page's entries have been yielded. -/
theorem ldap_c4_amended {α : Type} (pages : List (SearchPage α)) (i k : Nat)
    (h : (iterSearchTrace pages)[i]? = some (PageEvent.search (k + 1))) :
    1 ≤ i ∧ (iterSearchTrace pages)[i - 1]? = some (PageEvent.result k) := by
  cases i with
  | zero =>
    simp only [iterSearchTrace, List.getElem?_cons_zero, Option.some.injEq] at h
    injection h with h2
    omega
  | succ i2 =>
    refine ⟨Nat.le_add_left 1 i2, ?_⟩
    simp only [iterSearchTrace, List.getElem?_cons_succ] at h
    cases i2 with
    | zero =>
      rw [iterSearchGo_head 0 pages] at h
      simp at h
    | succ i3 =>
      have hres := iterSearchGo_search_after_result pages 0 i3 k h
      simp only [iterSearchTrace, Nat.add_sub_cancel, List.getElem?_cons_succ]
      exact hres

/-- Witness for the amended C4 theorem on the two-page backend. -/
theorem ldap_c4_amended_witness :
    1 ≤ 2 ∧ (iterSearchTrace [(⟨[1], "c", true⟩ : SearchPage Nat),
      ⟨[2], "", true⟩])[2 - 1]? = some (PageEvent.result 0) :=
  ldap_c4_amended [⟨[1], "c", true⟩, ⟨[2], "", true⟩] 2 0 (by decide)

/-! ### Early termination of the paged search (C7) -/

theorem iterSearchClosedGo_eq_noctrl {α : Type} (m n : Nat) (p : SearchPage α)
    (rest : List (SearchPage α)) (h : p.ctrlPresent = false) :
    iterSearchClosedGo m n (p :: rest) =
      PageEvent.result m :: PageEvent.warnControlIgnored ::
        (p.entries.take n).map PageEvent.yieldEntry := by
  simp [iterSearchClosedGo, h]

theorem iterSearchClosedGo_eq_final {α : Type} (m n : Nat) (p : SearchPage α)
    (rest : List (SearchPage α)) (h1 : p.ctrlPresent = true) (h2 : p.cookie = "") :
    iterSearchClosedGo m n (p :: rest) =
      PageEvent.result m :: (p.entries.take n).map PageEvent.yieldEntry := by
  simp [iterSearchClosedGo, h1, h2]

theorem iterSearchClosedGo_eq_trunc {α : Type} (m n : Nat) (p : SearchPage α)
    (rest : List (SearchPage α)) (h1 : p.ctrlPresent = true) (h2 : ¬p.cookie = "")
    (h3 : n ≤ p.entries.length) :
    iterSearchClosedGo m n (p :: rest) =
      PageEvent.result m :: PageEvent.search (m + 1) ::
        ((p.entries.take n).map PageEvent.yieldEntry ++
          [PageEvent.abandonReq (m + 1)]) := by
  simp [iterSearchClosedGo, h1, h2, h3]

theorem iterSearchClosedGo_eq_go {α : Type} (m n : Nat) (p : SearchPage α)
    (rest : List (SearchPage α)) (h1 : p.ctrlPresent = true) (h2 : ¬p.cookie = "")
    (h3 : ¬n ≤ p.entries.length) :
    iterSearchClosedGo m n (p :: rest) =
      PageEvent.result m :: PageEvent.search (m + 1) ::
        (p.entries.map PageEvent.yieldEntry ++
          iterSearchClosedGo (m + 1) (n - p.entries.length) rest) := by
  simp [iterSearchClosedGo, h1, h2, h3]

/-- The response to the pending request is always read first in the
closed trace. -/
theorem result_mem_iterSearchClosedGo {α : Type} (m n : Nat)
    (ps : List (SearchPage α)) :
    PageEvent.result m ∈ iterSearchClosedGo m n ps := by
  cases ps with
  | nil => simp [iterSearchClosedGo]
  | cons p rest =>
    cases hc : p.ctrlPresent with
    | false => rw [iterSearchClosedGo_eq_noctrl m n p rest hc]; simp
    | true =>
      by_cases hck : p.cookie = ""
      · rw [iterSearchClosedGo_eq_final m n p rest hc hck]; simp
      · by_cases hn : n ≤ p.entries.length
        · rw [iterSearchClosedGo_eq_trunc m n p rest hc hck hn]; simp
        · rw [iterSearchClosedGo_eq_go m n p rest hc hck hn]; simp

/-- No search event hides among mapped yields (membership form). -/
theorem search_not_mem_map_yield {α : Type} (es : List α) (k : Nat)
    (h : PageEvent.search k ∈ es.map (PageEvent.yieldEntry (α := α))) : False := by
  obtain ⟨a, _, heq⟩ := List.mem_map.mp h
  exact PageEvent.noConfusion heq

/-- In the closed loop trace every request read is matched by a
response or an abandon. -/
theorem iterSearchClosedGo_no_leak {α : Type} :
    ∀ (ps : List (SearchPage α)) (m n k : Nat),
      PageEvent.search k ∈ iterSearchClosedGo m n ps →
      PageEvent.result k ∈ iterSearchClosedGo m n ps ∨
        PageEvent.abandonReq k ∈ iterSearchClosedGo m n ps := by
  intro ps
  induction ps with
  | nil =>
    intro m n k h
    simp [iterSearchClosedGo] at h
  | cons p rest ih =>
    intro m n k h
    cases hc : p.ctrlPresent with
    | false =>
      rw [iterSearchClosedGo_eq_noctrl m n p rest hc] at h
      rcases List.mem_cons.mp h with h1 | h2
      · exact PageEvent.noConfusion h1
      · rcases List.mem_cons.mp h2 with h3 | h4
        · exact PageEvent.noConfusion h3
        · exact absurd h4 (fun hm => search_not_mem_map_yield _ k hm)
    | true =>
      by_cases hck : p.cookie = ""
      · rw [iterSearchClosedGo_eq_final m n p rest hc hck] at h
        rcases List.mem_cons.mp h with h1 | h2
        · exact PageEvent.noConfusion h1
        · exact absurd h2 (fun hm => search_not_mem_map_yield _ k hm)
      · by_cases hn : n ≤ p.entries.length
        · rw [iterSearchClosedGo_eq_trunc m n p rest hc hck hn] at h ⊢
          rcases List.mem_cons.mp h with h1 | h2
          · exact PageEvent.noConfusion h1
          · rcases List.mem_cons.mp h2 with h3 | h4
            · have hk : k = m + 1 := by
                injection h3
              right
              rw [hk]
              simp
            · rcases List.mem_append.mp h4 with h5 | h6
              · exact absurd h5 (fun hm => search_not_mem_map_yield _ k hm)
              · simp at h6
        · rw [iterSearchClosedGo_eq_go m n p rest hc hck hn] at h ⊢
          rcases List.mem_cons.mp h with h1 | h2
          · exact PageEvent.noConfusion h1
          · rcases List.mem_cons.mp h2 with h3 | h4
            · have hk : k = m + 1 := by
                injection h3
              left
              rw [hk]
              refine List.mem_cons_of_mem _ (List.mem_cons_of_mem _ ?_)
              exact List.mem_append_right _
                (result_mem_iterSearchClosedGo (m + 1) (n - p.entries.length) rest)
            · rcases List.mem_append.mp h4 with h5 | h6
              · exact absurd h5 (fun hm => search_not_mem_map_yield _ k hm)
              · rcases ih (m + 1) (n - p.entries.length) k h6 with hr | hr
                · left
                  exact List.mem_cons_of_mem _ (List.mem_cons_of_mem _
                    (List.mem_append_right _ hr))
                · right
                  exact List.mem_cons_of_mem _ (List.mem_cons_of_mem _
                    (List.mem_append_right _ hr))

/-- C7: when the consumer stops the paged search early, no backend
exchange is leaked: every request issued in the trace of the closed
generator is answered by a response read or explicitly abandoned by
the GeneratorExit handler. -/
theorem ldap_c7_abandons_inflight {α : Type} (pages : List (SearchPage α))
    (n k : Nat) (h : PageEvent.search k ∈ iterSearchClosedTrace pages n) :
    PageEvent.result k ∈ iterSearchClosedTrace pages n ∨
      PageEvent.abandonReq k ∈ iterSearchClosedTrace pages n := by
  by_cases hn : n = 0
  · rw [iterSearchClosedTrace, if_pos hn] at h
    simp at h
  · rw [iterSearchClosedTrace, if_neg hn] at h ⊢
    rcases List.mem_cons.mp h with h1 | h2
    · have hk : k = 0 := by
        injection h1
      left
      rw [hk]
      exact List.mem_cons_of_mem _ (result_mem_iterSearchClosedGo 0 n pages)
    · rcases iterSearchClosedGo_no_leak pages 0 n k h2 with hr | hr
      · exact Or.inl (List.mem_cons_of_mem _ hr)
      · exact Or.inr (List.mem_cons_of_mem _ hr)

/-- Witness for the C7 theorem: stopping after the first entry of a
two-page search abandons the pipelined second request. -/
theorem ldap_c7_witness :
    PageEvent.result 1 ∈ iterSearchClosedTrace
        [(⟨[5], "c", true⟩ : SearchPage Nat), ⟨[6], "", true⟩] 1 ∨
      PageEvent.abandonReq 1 ∈ iterSearchClosedTrace
        [(⟨[5], "c", true⟩ : SearchPage Nat), ⟨[6], "", true⟩] 1 :=
  ldap_c7_abandons_inflight [⟨[5], "c", true⟩, ⟨[6], "", true⟩] 1 1 (by decide)

end UserSync
